import Mathlib

/-!
Shallow embedding of the AwesomeGIC bank system (`bank-Js.js`).

The source is a single JavaScript class `BankAccountSystem` mixing an
interactive CLI with the core ledger / interest logic.  Following the spec's
scope (§1), the CLI prompting and console formatting are external; the
embedding covers the core state and operations with already-parsed values:

* calendar dates `"YYYYMMDD"` are embedded as the natural number the 8-digit
  string denotes (lexicographic comparison of equal-length digit strings
  coincides with numeric comparison);
* month keys `"YYYYMM"` likewise as naturals;
* monetary amounts and rates are embedded as exact rationals `ℚ` (the
  source's IEEE-754 doubles are out of scope for the embedding);
* JavaScript objects used as insertion-ordered string-keyed maps
  (`accounts`, `runningNumbers`) are embedded as association lists with
  replace-first / append-last update, which matches object key semantics;
* `Array.prototype.sort` (stable since ES2019) with a `localeCompare`
  comparator on digit strings is embedded as the stable `List.insertionSort`
  on the numeric dates.  The source sorts arrays in place; since every
  balance fold is a sum of signed amounts (order-independent) and stable
  date-sorts never change the relative order of same-date elements, the
  in-place mutation is observationally equivalent to the functional sort
  used here.
-/

set_option maxRecDepth 2000

/-- Transaction type as entered: `"D"` deposit, `"W"` withdrawal. -/
inductive TxnType
  | D
  | W
deriving DecidableEq, Repr

/-- Statement-line type: transaction types plus `"I"` for the synthetic
interest line produced by `printStatement`. -/
inductive LineType
  | D
  | W
  | I
deriving DecidableEq, Repr

/-- Line type of an ordinary transaction. -/
def LineType.ofTxn : TxnType → LineType
  | .D => .D
  | .W => .W

/-- A recorded transaction (the `transaction` object literal in
`inputTransaction`).  The source also stores a `balance: 0` field that is
never read back from the stored object; it is omitted. -/
structure Transaction where
  date : ℕ
  account : String
  type : TxnType
  amount : ℚ
  txnId : String
deriving DecidableEq, Repr

/-- An interest rule `{date, ruleId, rate}`. -/
structure InterestRule where
  date : ℕ
  ruleId : String
  rate : ℚ
deriving DecidableEq, Repr

/-- An account record `{createdDate, transactions}`. -/
structure Account where
  createdDate : ℕ
  transactions : List Transaction
deriving DecidableEq, Repr

/-- A line of a printed statement (amount and balance are kept as exact
rationals; the source formats them with `toFixed(2)` for display only). -/
structure StatementLine where
  date : ℕ
  txnId : String
  type : LineType
  amount : ℚ
  balance : ℚ
deriving DecidableEq, Repr

/-- The mutable state of `BankAccountSystem`. -/
structure Bank where
  accounts : List (String × Account)
  transactions : List Transaction
  interestRules : List InterestRule
  runningNumbers : List (ℕ × ℕ)
deriving DecidableEq, Repr

/-- The state right after `new BankAccountSystem()`. -/
def initialBank : Bank := ⟨[], [], [], []⟩

/-- Account used as the default of an absent lookup. -/
def emptyAccount : Account := ⟨0, []⟩

/-- The recoverable rejection messages of the source, one constructor per
`console.log`-and-reprompt branch. -/
inductive Err
  | invalidDate
  | invalidAmount
  | invalidAmountDecimals
  | cannotWithdrawNewAccount
  | insufficientBalance
  | invalidRate
  | accountNotFound
  | invalidMonth
  | noActivity
deriving DecidableEq, Repr

deriving instance DecidableEq for Except

/-! ## Date helpers -/

/-- Gregorian leap-year rule, as implemented by the JavaScript `Date`
constructor used in `isValidDate`. -/
def isLeapYear (y : ℕ) : Prop := (y % 4 = 0 ∧ y % 100 ≠ 0) ∨ y % 400 = 0

instance (y : ℕ) : Decidable (isLeapYear y) := by unfold isLeapYear; infer_instance

/-- Number of days of month `m` (1-12) of year `y`, as computed by
`new Date(year, month + 1, 0).getDate()`.  Months outside 1-12 are never
produced by a valid date and are mapped to 31. -/
def daysInMonth (y m : ℕ) : ℕ :=
  if m = 2 then (if isLeapYear y then 29 else 28)
  else if m = 4 ∨ m = 6 ∨ m = 9 ∨ m = 11 then 30
  else 31

/-- Validity of an 8-digit date string, embedded on its numeric value:
the `new Date(year, month - 1, day)` round-trip check of `isValidDate`
succeeds exactly when the month is 1-12, the day is within the month, and
the year is at least 100 (the JavaScript `Date` constructor reinterprets
two-digit years as 19xx, so years 0-99 always fail the round trip). -/
def isValidDate (d : ℕ) : Prop :=
  d < 100000000 ∧ 100 ≤ d / 10000 ∧
    1 ≤ d / 100 % 100 ∧ d / 100 % 100 ≤ 12 ∧
    1 ≤ d % 100 ∧ d % 100 ≤ daysInMonth (d / 10000) (d / 100 % 100)

instance (d : ℕ) : Decidable (isValidDate d) := by unfold isValidDate; infer_instance

/-- The `isValidAmount` check: the entered amount has at most two decimal
places, i.e. one hundred times it is an integer. -/
def isValidAmount (q : ℚ) : Prop := (q * 100).den = 1

instance (q : ℚ) : Decidable (isValidAmount q) := by unfold isValidAmount; infer_instance

/-! ## Transaction ids -/

/-- Left-pad a string to width `w` with `c` (`String.prototype.padStart`). -/
def padLeft (s : String) (w : ℕ) (c : Char) : String :=
  String.mk (List.replicate (w - s.length) c) ++ s

/-- The id `generateTransactionId` builds once the per-date counter has been
bumped to `seq`: the 8-digit date string, a dash, and the sequence number
padded to a minimum width of two digits. -/
def generateTransactionId (date seq : ℕ) : String :=
  padLeft (toString date) 8 '0' ++ "-" ++ padLeft (toString seq) 2 '0'

/-! ## Association-list helpers for the object-keyed maps -/

/-- Read `this.accounts[account]`. -/
def lookupAccount (b : Bank) (account : String) : Option Account :=
  (b.accounts.find? (fun p => p.1 == account)).map (·.2)

/-- Assignment to an object-keyed map: replace the first entry with the key,
or append a new entry (object property insertion order). -/
def setAssoc {α β : Type} [DecidableEq α] : List (α × β) → α → β → List (α × β)
  | [], key, v => [(key, v)]
  | (k, w) :: rest, key, v =>
      if k = key then (key, v) :: rest else (k, w) :: setAssoc rest key v

/-- Write `this.accounts[account] = a`. -/
def setAccount (l : List (String × Account)) (account : String) (a : Account) :
    List (String × Account) :=
  setAssoc l account a

/-- Read `this.runningNumbers[dateStr]`, defaulting a missing entry to 0. -/
def lookupCounter (l : List (ℕ × ℕ)) (d : ℕ) : ℕ :=
  match l.find? (fun p => p.1 == d) with
  | some p => p.2
  | none => 0

/-- Write `this.runningNumbers[dateStr] = c`. -/
def setCounter (l : List (ℕ × ℕ)) (d c : ℕ) : List (ℕ × ℕ) :=
  setAssoc l d c

/-! ## Balances -/

/-- `calculateNewBalance`: add deposits, subtract withdrawals. -/
def calculateNewBalance (balance : ℚ) (type : TxnType) (amount : ℚ) : ℚ :=
  if type = .D then balance + amount else balance - amount

/-- Fold a list of transactions over `calculateNewBalance`. -/
def foldBalance (start : ℚ) (l : List Transaction) : ℚ :=
  l.foldl (fun bal t => calculateNewBalance bal t.type t.amount) start

/-- `getAccountBalance`: `none` for an account that was never created,
otherwise the fold of its stored transactions from 0. -/
def getAccountBalance (b : Bank) (account : String) : Option ℚ :=
  (lookupAccount b account).map (fun a => foldBalance 0 a.transactions)

/-! ## Date-ordering of transactions and rules -/

/-- Comparator of the source's transaction sorts
(`a.date.localeCompare(b.date)` on 8-digit date strings). -/
def txnDateLe (a b : Transaction) : Prop := a.date ≤ b.date

instance : DecidableRel txnDateLe := fun a b => Nat.decLe a.date b.date

instance : IsTotal Transaction txnDateLe := ⟨fun a b => Nat.le_total a.date b.date⟩

instance : IsTrans Transaction txnDateLe := ⟨fun _ _ _ h h' => Nat.le_trans h h'⟩

/-- Stable ascending date sort of transactions. -/
def sortTxnsByDate (l : List Transaction) : List Transaction :=
  List.insertionSort txnDateLe l

/-- Ascending comparator of `interestRules.sort`. -/
def ruleDateLe (a b : InterestRule) : Prop := a.date ≤ b.date

instance : DecidableRel ruleDateLe := fun a b => Nat.decLe a.date b.date

instance : IsTotal InterestRule ruleDateLe := ⟨fun a b => Nat.le_total a.date b.date⟩

instance : IsTrans InterestRule ruleDateLe := ⟨fun _ _ _ h h' => Nat.le_trans h h'⟩

/-- Descending comparator of `getInterestRate`'s sort
(`b.date.localeCompare(a.date)`). -/
def ruleDateGe (a b : InterestRule) : Prop := b.date ≤ a.date

instance : DecidableRel ruleDateGe := fun a b => Nat.decLe b.date a.date

/-- Stable ascending date sort of interest rules. -/
def sortRulesByDate (l : List InterestRule) : List InterestRule :=
  List.insertionSort ruleDateLe l

/-! ## Recording transactions (`inputTransaction` minus prompting) -/

/-- The transaction object an accepted entry creates: its id comes from the
bumped per-date counter. -/
def newTxn (b : Bank) (date : ℕ) (account : String) (type : TxnType)
    (amount : ℚ) : Transaction :=
  ⟨date, account, type, amount,
    generateTransactionId date (lookupCounter b.runningNumbers date + 1)⟩

/-- Append the accepted transaction: bump the date counter, build the id,
push onto the global list, create the account on first use, and push onto
the account's list. -/
def commitTransaction (b : Bank) (date : ℕ) (account : String) (type : TxnType)
    (amount : ℚ) : Bank :=
  let t := newTxn b date account type amount
  { accounts :=
      match lookupAccount b account with
      | none => setAccount b.accounts account ⟨date, [t]⟩
      | some a => setAccount b.accounts account ⟨a.createdDate, a.transactions ++ [t]⟩
    transactions := b.transactions ++ [t]
    interestRules := b.interestRules
    runningNumbers := setCounter b.runningNumbers date (lookupCounter b.runningNumbers date + 1) }

/-- The validation-and-commit core of `inputTransaction`, with the checks in
source order: date format, positive amount, at most two decimals, and for
withdrawals the unopened-account and insufficient-balance checks. -/
def recordTransaction (b : Bank) (date : ℕ) (account : String) (type : TxnType)
    (amount : ℚ) : Except Err Bank :=
  if ¬ isValidDate date then .error .invalidDate
  else if ¬ 0 < amount then .error .invalidAmount
  else if ¬ isValidAmount amount then .error .invalidAmountDecimals
  else if type = .W then
    match getAccountBalance b account with
    | none => .error .cannotWithdrawNewAccount
    | some bal =>
        if bal < amount then .error .insufficientBalance
        else .ok (commitTransaction b date account type amount)
  else .ok (commitTransaction b date account type amount)

/-! ## Interest rules (`defineInterestRule` minus prompting) -/

/-- The `findIndex`-replace-else-push update of `interestRules`: replace the
first rule with the same date, or append. -/
def upsertRule : List InterestRule → InterestRule → List InterestRule
  | [], r => [r]
  | x :: rest, r => if x.date = r.date then r :: rest else x :: upsertRule rest r

/-- The validation-and-update core of `defineInterestRule`: date format,
rate strictly between 0 and 100, then upsert by date and re-sort. -/
def defineInterestRule (b : Bank) (date : ℕ) (ruleId : String) (rate : ℚ) :
    Except Err Bank :=
  if ¬ isValidDate date then .error .invalidDate
  else if ¬ (0 < rate ∧ rate < 100) then .error .invalidRate
  else .ok { b with
    interestRules := sortRulesByDate (upsertRule b.interestRules ⟨date, ruleId, rate⟩) }

/-- `getInterestRate`: the rate of the latest rule effective on or before
`date`, or 0 when no rule applies. -/
def getInterestRate (rules : List InterestRule) (date : ℕ) : ℚ :=
  match List.insertionSort ruleDateGe (rules.filter (fun r => decide (r.date ≤ date))) with
  | [] => 0
  | r :: _ => r.rate

/-! ## Monthly interest (`calculateMonthlyInterest`) -/

/-- Rounding of `parseFloat(x.toFixed(2))`, embedded as exact rounding of the
rational to 2 decimal places. -/
def round2 (q : ℚ) : ℚ := (round (q * 100) : ℤ) / 100

/-- One transaction applied to the daily-balance table: the running balance
is updated and written forward onto every day from the transaction's day to
the end of the month. -/
def applyTxnToTable (n : ℕ) (st : (ℕ → ℚ) × ℚ) (t : Transaction) : (ℕ → ℚ) × ℚ :=
  let cb := calculateNewBalance st.2 t.type t.amount
  (fun d => if t.date % 100 ≤ d ∧ d ≤ n then cb else st.1 d, cb)

/-- The `dailyBalances` table of a month of `n` days: every day starts at the
pre-month balance, then the month's transactions (in the order given) write
their resulting balance forward. -/
def buildDailyBalances (opening : ℚ) (n : ℕ) (txns : List Transaction) :
    (ℕ → ℚ) × ℚ :=
  txns.foldl (applyTxnToTable n) ((fun _ => opening), opening)

/-- One iteration of the interest loop at day `day`: when the rate changes,
close the period that ended on `day - 1` (crediting it only when its rate is
positive) and start a new period at `day`. -/
def interestStep (rate bal : ℕ → ℚ) (st : ℕ × ℚ × ℚ) (day : ℕ) : ℕ × ℚ × ℚ :=
  let r := rate day
  if r = st.2.1 then st
  else
    (day, r,
      if 0 < st.2.1 then
        st.2.2 + bal st.1 * st.2.1 / 100 * ((day - st.1 : ℕ) : ℚ) / 365
      else st.2.2)

/-- Close the final period, which runs from the loop's final period start to
the last day `n` of the month. -/
def finishPeriod (bal : ℕ → ℚ) (n : ℕ) (st : ℕ × ℚ × ℚ) : ℚ :=
  if 0 < st.2.1 then
    st.2.2 + bal st.1 * st.2.1 / 100 * ((n - st.1 + 1 : ℕ) : ℚ) / 365
  else st.2.2

/-- The interest loop of `calculateMonthlyInterest`: days 2 to `n` are
scanned for rate changes starting from a period opened on day 1, and the
final period is closed at day `n`. -/
def interestLoop (rate bal : ℕ → ℚ) (n : ℕ) : ℚ :=
  finishPeriod bal n ((List.range' 2 (n - 1)).foldl (interestStep rate bal) (1, rate 1, 0))

/-- The pre-month balance: fold of the account's transactions dated strictly
before the 1st of the month (computed on the sorted list in the source; the
fold is order-independent). -/
def monthOpening (b : Bank) (account : String) (monthStr : ℕ) : ℚ :=
  let a := (lookupAccount b account).getD emptyAccount
  foldBalance 0
    ((sortTxnsByDate a.transactions).filter (fun t => decide (t.date < monthStr * 100 + 1)))

/-- The account's transactions falling in the month, sorted by date
(`txn.date.startsWith(monthStr)` on the sorted list). -/
def monthTransactions (b : Bank) (account : String) (monthStr : ℕ) : List Transaction :=
  (sortTxnsByDate ((lookupAccount b account).getD emptyAccount).transactions).filter
    (fun t => t.date / 100 == monthStr)

/-- The daily-balance table of the month as a function of the day number. -/
def monthTable (b : Bank) (account : String) (monthStr : ℕ) (n : ℕ) : ℕ → ℚ :=
  (buildDailyBalances (monthOpening b account monthStr) n
    (monthTransactions b account monthStr)).1

/-- The rate in effect on day `d` of the month. -/
def monthRate (b : Bank) (monthStr : ℕ) (d : ℕ) : ℚ :=
  getInterestRate b.interestRules (monthStr * 100 + d)

/-- `calculateMonthlyInterest(account, monthStr, endBalance)`: 0 when no
rules exist, otherwise the day-run scan over the month's daily balances,
rounded to 2 decimals.  The `endBalance` argument is accepted but, as in the
source, never read. -/
def calculateMonthlyInterest (b : Bank) (account : String) (monthStr : ℕ)
    (endBalance : ℚ) : ℚ :=
  if b.interestRules = [] then 0
  else
    let n := daysInMonth (monthStr / 100) (monthStr % 100)
    round2 (interestLoop (monthRate b monthStr) (monthTable b account monthStr n) n)

/-! ## Statements (`printStatement` minus rendering) -/

/-- The statement lines of the month's transactions with their running
balances, starting from the pre-month balance. -/
def monthLines (opening : ℚ) (txns : List Transaction) : List StatementLine × ℚ :=
  txns.foldl
    (fun st t =>
      let nb := calculateNewBalance st.2 t.type t.amount
      (st.1 ++ [⟨t.date, t.txnId, LineType.ofTxn t.type, t.amount, nb⟩], nb))
    ([], opening)

/-- The validation-and-build core of `printStatement`: unknown account,
month-format, and empty-month rejections, then the month's lines, then the
synthetic interest line (dated day "30" of the month, as hard-coded in the
source) when the computed interest is positive. -/
def printStatement (b : Bank) (account : String) (monthStr : ℕ) :
    Except Err (List StatementLine) :=
  match lookupAccount b account with
  | none => .error .accountNotFound
  | some a =>
      if ¬ monthStr < 1000000 then .error .invalidMonth
      else
        let monthTxns :=
          sortTxnsByDate (a.transactions.filter (fun t => t.date / 100 == monthStr))
        if monthTxns = [] then .error .noActivity
        else
          let opening :=
            foldBalance 0
              ((sortTxnsByDate (a.transactions.filter
                  (fun t => decide (t.date < monthStr * 100 + 1)))))
          let lines := monthLines opening monthTxns
          let interest := calculateMonthlyInterest b account monthStr lines.2
          if 0 < interest then
            .ok (lines.1 ++
              [⟨monthStr * 100 + 30, "", LineType.I, interest, lines.2 + interest⟩])
          else .ok lines.1

/-! ## The operation sequences of the menu loop -/

/-- An already-parsed menu operation that can mutate the state: a transaction
entry or an interest-rule entry (statement printing never mutates). -/
inductive Op
  | txn (date : ℕ) (account : String) (type : TxnType) (amount : ℚ)
  | rule (date : ℕ) (ruleId : String) (rate : ℚ)

/-- Run one operation, surfacing the rejection if any. -/
def stepBank (b : Bank) : Op → Except Err Bank
  | .txn d a t q => recordTransaction b d a t q
  | .rule d rid r => defineInterestRule b d rid r

/-- Run one operation; a rejected operation re-prompts in the source and
leaves the state untouched. -/
def applyOp (b : Bank) (op : Op) : Bank :=
  match stepBank b op with
  | .ok b' => b'
  | .error _ => b

/-- Run a sequence of operations. -/
def applyOps (b : Bank) (ops : List Op) : Bank := ops.foldl applyOp b

/-! ## Spec-side formulation of the monthly interest (§4.3 of the spec)

The claim describes the interest as a sum over the maximal contiguous runs
of days of the month on which `rate_on` gives the same rate.  The
definitions below follow the spec's words; the theorem for the claim
relates them to `calculateMonthlyInterest` above. -/

/-- Number of further days (at most `fuel`) the equal-rate run starting at
`s` extends past `s`: keep extending while the next day has the same rate. -/
def runLen (rate : ℕ → ℚ) : ℕ → ℕ → ℕ
  | 0, _ => 0
  | fuel + 1, s => if rate (s + 1) = rate s then runLen rate fuel (s + 1) + 1 else 0

/-- Last day of the maximal contiguous run of days starting at `s` (within
days `s..n`) on which the rate function is constant. -/
def runEnd (rate : ℕ → ℚ) (n s : ℕ) : ℕ := s + runLen rate (n - s) s

/-- The maximal contiguous equal-rate runs partitioning days `s..n`, as
start-end pairs in ascending order. -/
def runsFrom (rate : ℕ → ℚ) (n s : ℕ) : List (ℕ × ℕ) :=
  if s ≤ n then
    (s, runEnd rate n s) ::
      (if h : runEnd rate n s < n then runsFrom rate n (runEnd rate n s + 1) else [])
  else []
termination_by n + 1 - s
decreasing_by
  simp only [runEnd] at h ⊢
  omega

/-- The contribution of the run `s..e` per the claim: zero-rate runs
contribute 0, other runs contribute
`balance(s) * rate(s) / 100 * (e - s + 1) / 365`. -/
def specContrib (rate bal : ℕ → ℚ) (s e : ℕ) : ℚ :=
  if rate s = 0 then 0 else bal s * rate s / 100 * ((e - s + 1 : ℕ) : ℚ) / 365

/-- Sum of the run contributions over a run list. -/
def runSum (rate bal : ℕ → ℚ) (rs : List (ℕ × ℕ)) : ℚ :=
  (rs.map (fun p => specContrib rate bal p.1 p.2)).sum

/-- The spec's `balance_as_of` for day `d` of the month: fold of all of the
account's transactions dated at most day `d` of the month. -/
def specDailyBalance (b : Bank) (account : String) (monthStr d : ℕ) : ℚ :=
  foldBalance 0
    (((lookupAccount b account).getD emptyAccount).transactions.filter
      (fun t => decide (t.date ≤ monthStr * 100 + d)))

/-- The spec's monthly interest before rounding: the sum, over the maximal
contiguous equal-rate runs of the month's days, of the run contributions
taken at the balance of each run's start day. -/
def specMonthlyInterest (b : Bank) (account : String) (monthStr : ℕ) : ℚ :=
  let n := daysInMonth (monthStr / 100) (monthStr % 100)
  runSum (monthRate b monthStr) (specDailyBalance b account monthStr) (runsFrom (monthRate b monthStr) n 1)

/-! ## Proof-side helpers and concrete scenario states -/

/-- The signed contribution of one transaction to a balance. -/
def signedAmount (t : Transaction) : ℚ := if t.type = .D then t.amount else -t.amount

/-- Sum of signed transaction amounts. -/
def signedSum (l : List Transaction) : ℚ := (l.map signedAmount).sum

/-- Scenario C of the spec: deposit `100.00` then withdraw `30.00` on
`20230601` for account `AC001`. -/
def scenarioC : Bank :=
  applyOps initialBank
    [Op.txn 20230601 "AC001" TxnType.D 100, Op.txn 20230601 "AC001" TxnType.W 30]

/-- A state with a backdated withdrawal: deposit `100.00` on `20230610`,
then withdraw `50.00` dated `20230601` (accepted, since the current balance
is 100). -/
def backdatedBank : Bank :=
  applyOps initialBank
    [Op.txn 20230610 "AC001" TxnType.D 100, Op.txn 20230601 "AC001" TxnType.W 50]

/-- A 31-day-month scenario: a 5% rule from `20230101` and a deposit of
`100.00` on `20230701`. -/
def julyBank : Bank :=
  applyOps initialBank
    [Op.rule 20230101 "R1" 5, Op.txn 20230701 "AC001" TxnType.D 100]

/-- A state whose account transacted in May 2023 only, with an interest rule
in force. -/
def bankMay : Bank :=
  applyOps initialBank
    [Op.rule 20230101 "R1" 2, Op.txn 20230510 "AC001" TxnType.D 100]

/-- Scenario E of the spec: rate `1.00` from `20230101`, `2.00` from
`20230615`, and a flat balance of `1000.00` through June 2023 (30 days). -/
def scenarioE : Bank :=
  applyOps initialBank
    [Op.rule 20230101 "R1" 1, Op.rule 20230615 "R2" 2,
      Op.txn 20230520 "AC001" TxnType.D 1000]

/-! ## Theorems -/

/-- C10: `calculateMonthlyInterest` is independent of the running-balance
argument handed to it by `printStatement`: the source accepts the
`endBalance` parameter but never reads it, recomputing the pre-month
opening balance from the account's transactions itself. -/
theorem calculateMonthlyInterest_ignores_endBalance (b : Bank) (account : String)
    (monthStr : ℕ) (b1 b2 : ℚ) :
    calculateMonthlyInterest b account monthStr b1
      = calculateMonthlyInterest b account monthStr b2 := rfl

/-- C4: for an account that has never had a transaction recorded, an
otherwise-valid withdrawal is rejected with the unopened-account error, and
the rejected operation leaves the whole state — in particular the account
map — unchanged. -/
theorem withdrawal_on_unopened_account_rejected (b : Bank) (date : ℕ)
    (account : String) (amount : ℚ) (hd : isValidDate date) (hpos : 0 < amount)
    (hdec : isValidAmount amount) (hacc : lookupAccount b account = none) :
    recordTransaction b date account TxnType.W amount
        = Except.error Err.cannotWithdrawNewAccount
      ∧ applyOp b (Op.txn date account TxnType.W amount) = b := by
  have hbal : getAccountBalance b account = none := by
    simp [getAccountBalance, hacc]
  refine ⟨?_, ?_⟩
  · simp [recordTransaction, hd, hpos, hdec, hbal]
  · simp [applyOp, stepBank, recordTransaction, hd, hpos, hdec, hbal]

unseal Rat.add Rat.mul Rat.sub Rat.inv in
/-- Witness for C4 at Scenario B of the spec: a withdrawal for the
never-seen account `AC002` on the fresh bank is rejected and creates
nothing. -/
theorem withdrawal_on_unopened_account_rejected_witness :
    isValidDate 20230626 ∧ (0 : ℚ) < 100 ∧ isValidAmount 100
      ∧ lookupAccount initialBank "AC002" = none
      ∧ (recordTransaction initialBank 20230626 "AC002" TxnType.W 100
            = Except.error Err.cannotWithdrawNewAccount
          ∧ applyOp initialBank (Op.txn 20230626 "AC002" TxnType.W 100) = initialBank) :=
  ⟨by decide, by norm_num, by decide, rfl,
    withdrawal_on_unopened_account_rejected initialBank 20230626 "AC002" 100
      (by decide) (by norm_num) (by decide) rfl⟩

/-- C5: a withdrawal whose amount strictly exceeds the account's current
balance is rejected with the insufficient-funds error, and every rejected
operation leaves the state unchanged (no transaction appended, no account
created, no counter advanced). -/
theorem overdraft_rejected_and_rejections_preserve_state :
    (∀ (b : Bank) (date : ℕ) (account : String) (amount bal : ℚ),
        isValidDate date → 0 < amount → isValidAmount amount →
        getAccountBalance b account = some bal → bal < amount →
        recordTransaction b date account TxnType.W amount
          = Except.error Err.insufficientBalance)
      ∧ ∀ (b : Bank) (op : Op) (e : Err),
          stepBank b op = Except.error e → applyOp b op = b := by
  refine ⟨?_, ?_⟩
  · intro b date account amount bal hd hpos hdec hbal hlt
    simp [recordTransaction, hd, hpos, hdec, hbal, hlt]
  · intro b op e he
    simp [applyOp, he]

unseal Rat.add Rat.mul Rat.sub Rat.inv in
/-- Witness for C5 at Scenario C of the spec: after depositing `100.00` and
withdrawing `30.00` on `20230601`, a further withdrawal of `100.00` is
rejected with the insufficient-funds error and the balance stays `70.00`. -/
theorem overdraft_rejected_witness :
    getAccountBalance scenarioC "AC001" = some 70
      ∧ (70 : ℚ) < 100
      ∧ recordTransaction scenarioC 20230601 "AC001" TxnType.W 100
          = Except.error Err.insufficientBalance
      ∧ applyOp scenarioC (Op.txn 20230601 "AC001" TxnType.W 100) = scenarioC
      ∧ getAccountBalance (applyOp scenarioC (Op.txn 20230601 "AC001" TxnType.W 100))
          "AC001" = some 70 := by
  have h1 : getAccountBalance scenarioC "AC001" = some 70 := by
    decide
  have h2 := overdraft_rejected_and_rejections_preserve_state.1 scenarioC 20230601
    "AC001" 100 70 (by decide) (by norm_num) (by decide) h1
    (by norm_num)
  have h3 := overdraft_rejected_and_rejections_preserve_state.2 scenarioC
    (Op.txn 20230601 "AC001" TxnType.W 100) Err.insufficientBalance
    (by simpa [stepBank] using h2)
  exact ⟨h1, by norm_num, h2, h3, by rw [h3]; exact h1⟩

/-- C9: a statement request for an existing account and a month in which it
has no transactions is rejected with the no-activity error, whatever the
interest rules in force. -/
theorem statement_month_without_transactions_rejected (b : Bank)
    (account : String) (monthStr : ℕ) (a : Account)
    (ha : lookupAccount b account = some a) (hm : monthStr < 1000000)
    (hnone : a.transactions.filter (fun t => t.date / 100 == monthStr) = []) :
    printStatement b account monthStr = Except.error Err.noActivity := by
  simp [printStatement, ha, hm, hnone, sortTxnsByDate]

unseal Rat.add Rat.mul Rat.sub Rat.inv in
/-- Witness for C9 at Scenario F of the spec: `bankMay` has a rule in force
and its account transacted in May 2023 only, so the June 2023 statement is
rejected with the no-activity error. -/
theorem statement_month_without_transactions_rejected_witness :
    lookupAccount bankMay "AC001"
        = some ⟨20230510, [⟨20230510, "AC001", TxnType.D, 100, "20230510-01"⟩]⟩
      ∧ (202306 : ℕ) < 1000000
      ∧ bankMay.interestRules = [⟨20230101, "R1", 2⟩]
      ∧ printStatement bankMay "AC001" 202306 = Except.error Err.noActivity := by
  have ha : lookupAccount bankMay "AC001"
      = some ⟨20230510, [⟨20230510, "AC001", TxnType.D, 100, "20230510-01"⟩]⟩ := by
    decide
  refine ⟨ha, by decide, by decide,
    statement_month_without_transactions_rejected bankMay "AC001" 202306 _ ha
      (by decide) (by decide)⟩

unseal Rat.add Rat.mul Rat.sub Rat.inv in
/-- C8 (code bug): the synthetic interest line of `julyBank`'s July 2023
statement is dated `20230730` — the source hard-codes day `"30"` with the
comment `// Last day of month` — although July has 31 days.  The other
asserted properties hold at this input: exactly one trailing interest line
with an empty transaction id, type `I`, and the computed interest `0.42`. -/
theorem interest_line_dated_day30_in_31_day_month :
    printStatement julyBank "AC001" 202307
        = Except.ok [⟨20230701, "20230701-01", LineType.D, 100, 100⟩,
            ⟨20230730, "", LineType.I, 21 / 50, 100 + 21 / 50⟩]
      ∧ daysInMonth 2023 7 = 31 :=
  ⟨by decide, by decide⟩

unseal Rat.add Rat.mul Rat.sub Rat.inv in
/-- Counterexample to C2 as stated: in `backdatedBank` both operations were
accepted (the account holds two transactions), yet folding the account's
transactions in chronological order — sorted by date ascending — reaches
balance `-50` after the first prefix, which is negative. -/
theorem chronological_prefix_balance_negative :
    ((lookupAccount backdatedBank "AC001").getD emptyAccount).transactions.length = 2
      ∧ foldBalance 0
          ((sortTxnsByDate
              ((lookupAccount backdatedBank "AC001").getD emptyAccount).transactions).take 1)
          = -50
      ∧ ¬ (0 ≤ foldBalance 0
          ((sortTxnsByDate
              ((lookupAccount backdatedBank "AC001").getD emptyAccount).transactions).take 1)) := by
  refine ⟨by decide, by decide, ?_⟩
  have h : foldBalance 0
      ((sortTxnsByDate
          ((lookupAccount backdatedBank "AC001").getD emptyAccount).transactions).take 1)
      = -50 := by decide
  rw [h]
  norm_num

/-! ## State-machine invariants: shared helper lemmas -/

theorem find?_setAssoc {α β : Type} [BEq α] [LawfulBEq α] [DecidableEq α]
    (l : List (α × β)) (key k' : α) (v : β) :
    (setAssoc l key v).find? (fun p => p.1 == k')
      = if k' = key then some (key, v) else l.find? (fun p => p.1 == k') := by
  induction l with
  | nil =>
      by_cases h : k' = key
      · subst h
        simp [setAssoc]
      · simp [setAssoc, beq_false_of_ne (fun hx : key = k' => h hx.symm), h]
  | cons kv rest ih =>
      obtain ⟨k, w⟩ := kv
      simp only [setAssoc]
      by_cases hk : k = key
      · subst hk
        rw [if_pos rfl]
        by_cases h : k' = k
        · subst h
          simp
        · simp [beq_false_of_ne (fun hx : k = k' => h hx.symm), h]
      · rw [if_neg hk]
        by_cases h : k' = k
        · subst h
          have hne : ¬ k' = key := fun hx => hk hx
          simp [hne]
        · rw [List.find?_cons_of_neg _ (by simpa using fun hx : k = k' => h hx.symm),
            List.find?_cons_of_neg _ (by simpa using fun hx : k = k' => h hx.symm), ih]

theorem lookupCounter_setCounter (l : List (ℕ × ℕ)) (d c d' : ℕ) :
    lookupCounter (setCounter l d c) d' = if d' = d then c else lookupCounter l d' := by
  unfold lookupCounter setCounter
  rw [find?_setAssoc]
  by_cases h : d' = d <;> simp [h]

theorem foldBalance_append (c : ℚ) (l₁ l₂ : List Transaction) :
    foldBalance c (l₁ ++ l₂) = foldBalance (foldBalance c l₁) l₂ := by
  simp [foldBalance, List.foldl_append]

theorem foldBalance_snoc (c : ℚ) (l : List Transaction) (t : Transaction) :
    foldBalance c (l ++ [t]) = calculateNewBalance (foldBalance c l) t.type t.amount := by
  simp [foldBalance_append, foldBalance]

theorem lookupAccount_commit (b : Bank) (d : ℕ) (acct : String) (ty : TxnType)
    (q : ℚ) (account : String) :
    lookupAccount (commitTransaction b d acct ty q) account
      = if account = acct then
          some (match lookupAccount b acct with
            | none => ⟨d, [newTxn b d acct ty q]⟩
            | some a => ⟨a.createdDate, a.transactions ++ [newTxn b d acct ty q]⟩)
        else lookupAccount b account := by
  cases hx : lookupAccount b acct with
  | none =>
      simp only [commitTransaction, lookupAccount] at hx ⊢
      rw [hx]
      dsimp only
      rw [show setAccount b.accounts acct (⟨d, [newTxn b d acct ty q]⟩ : Account)
          = setAssoc b.accounts acct ⟨d, [newTxn b d acct ty q]⟩ from rfl, find?_setAssoc]
      by_cases h : account = acct <;> simp [h]
  | some a =>
      simp only [commitTransaction, lookupAccount] at hx ⊢
      rw [hx]
      dsimp only
      rw [show setAccount b.accounts acct
            (⟨a.createdDate, a.transactions ++ [newTxn b d acct ty q]⟩ : Account)
          = setAssoc b.accounts acct
            ⟨a.createdDate, a.transactions ++ [newTxn b d acct ty q]⟩ from rfl,
        find?_setAssoc]
      by_cases h : account = acct <;> simp [h]

theorem recordTransaction_ok_cases {b : Bank} {date : ℕ} {account : String}
    {type : TxnType} {amount : ℚ} {b' : Bank}
    (h : recordTransaction b date account type amount = Except.ok b') :
    b' = commitTransaction b date account type amount ∧ 0 < amount ∧
      (type = TxnType.W →
        ∃ bal, getAccountBalance b account = some bal ∧ amount ≤ bal) := by
  unfold recordTransaction at h
  split_ifs at h with h1 h2 h3 h4
  · cases hbal : getAccountBalance b account with
    | none =>
        rw [hbal] at h
        dsimp only at h
        cases h
    | some bal =>
        rw [hbal] at h
        dsimp only at h
        split_ifs at h with h5
        cases h
        exact ⟨rfl, h2, fun _ => ⟨bal, rfl, not_lt.mp h5⟩⟩
  · cases h
    exact ⟨rfl, h2, fun hw => absurd hw h4⟩

theorem applyOps_cons (b : Bank) (op : Op) (ops : List Op) :
    applyOps b (op :: ops) = applyOps (applyOp b op) ops := rfl

/-! ## C2: prefix non-negativity in insertion order -/

theorem prefixNonneg_applyOp (b : Bank) (op : Op)
    (h : ∀ (account : String) (k : ℕ),
      0 ≤ foldBalance 0
        ((((lookupAccount b account).getD emptyAccount).transactions).take k)) :
    ∀ (account : String) (k : ℕ),
      0 ≤ foldBalance 0
        ((((lookupAccount (applyOp b op) account).getD emptyAccount).transactions).take k) := by
  intro account k
  cases op with
  | rule d rid r =>
      have hlk : lookupAccount (applyOp b (Op.rule d rid r)) account
          = lookupAccount b account := by
        simp only [applyOp, stepBank, defineInterestRule]
        split_ifs <;> simp [lookupAccount]
      rw [hlk]
      exact h account k
  | txn d acct ty q =>
      cases hstep : recordTransaction b d acct ty q with
      | error e =>
          have : applyOp b (Op.txn d acct ty q) = b := by simp [applyOp, stepBank, hstep]
          rw [this]
          exact h account k
      | ok b2 =>
          obtain ⟨hb2, hq, hw⟩ := recordTransaction_ok_cases hstep
          have happ : applyOp b (Op.txn d acct ty q)
              = commitTransaction b d acct ty q := by
            simp [applyOp, stepBank, hstep, hb2]
          rw [happ, lookupAccount_commit]
          by_cases hacq : account = acct
          · rw [if_pos hacq]
            cases hx : lookupAccount b acct with
            | none =>
                cases ty with
                | W =>
                    obtain ⟨bal, hbal, _⟩ := hw rfl
                    rw [getAccountBalance, hx] at hbal
                    cases hbal
                | D =>
                    cases k with
                    | zero => simp [foldBalance]
                    | succ k =>
                        simp only [Option.getD_some, List.take_succ_cons, List.take_nil]
                        simp [foldBalance, calculateNewBalance, newTxn]
                        exact le_of_lt hq
            | some a =>
                simp only [Option.getD_some]
                by_cases hk : k ≤ a.transactions.length
                · rw [List.take_append_of_le_length hk]
                  have := h acct k
                  rw [hx] at this
                  exact this
                · rw [List.take_of_length_le (by simp; omega)]
                  rw [foldBalance_snoc]
                  have hfold : 0 ≤ foldBalance 0 a.transactions := by
                    have := h acct a.transactions.length
                    rw [hx] at this
                    simpa [List.take_length] using this
                  cases ty with
                  | D =>
                      simp [newTxn, calculateNewBalance]
                      linarith
                  | W =>
                      obtain ⟨bal, hbal, hle⟩ := hw rfl
                      rw [getAccountBalance, hx] at hbal
                      simp at hbal
                      simp [newTxn, calculateNewBalance]
                      rw [hbal]
                      exact hle
          · rw [if_neg hacq]
            exact h account k

theorem prefixNonneg_applyOps (ops : List Op) (b : Bank)
    (h : ∀ (account : String) (k : ℕ),
      0 ≤ foldBalance 0
        ((((lookupAccount b account).getD emptyAccount).transactions).take k)) :
    ∀ (account : String) (k : ℕ),
      0 ≤ foldBalance 0
        ((((lookupAccount (applyOps b ops) account).getD emptyAccount).transactions).take k) := by
  induction ops generalizing b with
  | nil => exact h
  | cons op rest ih =>
      rw [applyOps_cons]
      exact ih (applyOp b op) (prefixNonneg_applyOp b op h)

/-- C2 (amended): for every sequence of accepted record operations and every
account, folding the account's transactions in the order they were recorded
(insertion order) yields a balance that is at least 0 after every prefix.
With backdated transactions the chronological-order version fails (see the
counterexample); when operations arrive in nondecreasing date order the two
orders coincide. -/
theorem account_prefix_balances_nonneg (ops : List Op) (account : String) (k : ℕ) :
    0 ≤ foldBalance 0
        ((((lookupAccount (applyOps initialBank ops) account).getD
            emptyAccount).transactions).take k) := by
  refine prefixNonneg_applyOps ops initialBank ?_ account k
  intro account k
  simp [lookupAccount, initialBank, emptyAccount, foldBalance]

/-! ## C3: per-date sequential transaction ids -/

theorem idInv_applyOp (b : Bank) (op : Op)
    (h : ∀ d : ℕ,
      lookupCounter b.runningNumbers d
          = (b.transactions.filter (fun t => t.date == d)).length
        ∧ (b.transactions.filter (fun t => t.date == d)).map (·.txnId)
          = (List.range (b.transactions.filter (fun t => t.date == d)).length).map
              (fun i => generateTransactionId d (i + 1))) :
    ∀ d : ℕ,
      lookupCounter (applyOp b op).runningNumbers d
          = ((applyOp b op).transactions.filter (fun t => t.date == d)).length
        ∧ ((applyOp b op).transactions.filter (fun t => t.date == d)).map (·.txnId)
          = (List.range
              ((applyOp b op).transactions.filter (fun t => t.date == d)).length).map
              (fun i => generateTransactionId d (i + 1)) := by
  intro d
  cases op with
  | rule dd rid r =>
      have hsame : (applyOp b (Op.rule dd rid r)).transactions = b.transactions
          ∧ (applyOp b (Op.rule dd rid r)).runningNumbers = b.runningNumbers := by
        simp only [applyOp, stepBank, defineInterestRule]
        split_ifs <;> simp
      rw [hsame.1, hsame.2]
      exact h d
  | txn dd acct ty q =>
      cases hstep : recordTransaction b dd acct ty q with
      | error e =>
          have : applyOp b (Op.txn dd acct ty q) = b := by
            simp [applyOp, stepBank, hstep]
          rw [this]
          exact h d
      | ok b2 =>
          obtain ⟨hb2, _, _⟩ := recordTransaction_ok_cases hstep
          have happ : applyOp b (Op.txn dd acct ty q)
              = commitTransaction b dd acct ty q := by
            simp [applyOp, stepBank, hstep, hb2]
          rw [happ]
          have htx : (commitTransaction b dd acct ty q).transactions
              = b.transactions ++ [newTxn b dd acct ty q] := rfl
          have hrn : (commitTransaction b dd acct ty q).runningNumbers
              = setCounter b.runningNumbers dd
                  (lookupCounter b.runningNumbers dd + 1) := rfl
          rw [htx, hrn, List.filter_append, lookupCounter_setCounter]
          by_cases hd : d = dd
          · subst hd
            have hft : (List.filter (fun t => t.date == d) [newTxn b d acct ty q])
                = [newTxn b d acct ty q] := by
              simp [newTxn]
            rw [hft, (h d).1]
            constructor
            · simp
            · rw [List.map_append, (h d).2]
              simp only [List.length_append, List.length_map, List.length_range,
                List.length_singleton]
              rw [List.range_succ, List.map_append]
              simp [newTxn, generateTransactionId, (h d).1]
          · have hft : (List.filter (fun t => t.date == d) [newTxn b dd acct ty q])
                = [] := by
              simp [newTxn]
              exact fun hx => hd hx.symm
            rw [hft, List.append_nil, if_neg hd]
            exact h d

theorem idInv_applyOps (ops : List Op) (b : Bank)
    (h : ∀ d : ℕ,
      lookupCounter b.runningNumbers d
          = (b.transactions.filter (fun t => t.date == d)).length
        ∧ (b.transactions.filter (fun t => t.date == d)).map (·.txnId)
          = (List.range (b.transactions.filter (fun t => t.date == d)).length).map
              (fun i => generateTransactionId d (i + 1))) :
    ∀ d : ℕ,
      lookupCounter (applyOps b ops).runningNumbers d
          = ((applyOps b ops).transactions.filter (fun t => t.date == d)).length
        ∧ ((applyOps b ops).transactions.filter (fun t => t.date == d)).map (·.txnId)
          = (List.range
              ((applyOps b ops).transactions.filter (fun t => t.date == d)).length).map
              (fun i => generateTransactionId d (i + 1)) := by
  induction ops generalizing b with
  | nil => exact h
  | cons op rest ih =>
      rw [applyOps_cons]
      exact ih (applyOp b op) (idInv_applyOp b op h)

/-- C3: after any sequence of operations, the transactions bearing a given
date — across all accounts, in the order they were recorded in the global
list — carry the ids `generateTransactionId d 1, generateTransactionId d 2, …`,
i.e. `"<date>-01", "<date>-02", …` with the sequence number starting at 1 and
padded to a minimum width of two digits, with no gaps or reuse. -/
theorem txn_ids_sequential_per_date (ops : List Op) (d : ℕ) :
    (((applyOps initialBank ops).transactions.filter
        (fun t => t.date == d)).map (·.txnId))
      = (List.range
          ((applyOps initialBank ops).transactions.filter
            (fun t => t.date == d)).length).map
          (fun i => generateTransactionId d (i + 1)) := by
  refine (idInv_applyOps ops initialBank ?_ d).2
  intro d
  simp [initialBank, lookupCounter]

/-! ## C6: the interest-rule list -/

theorem applyOp_rule (b : Bank) (d : ℕ) (rid : String) (r : ℚ) :
    applyOp b (Op.rule d rid r)
      = if isValidDate d ∧ 0 < r ∧ r < 100 then
          { b with
            interestRules := sortRulesByDate (upsertRule b.interestRules ⟨d, rid, r⟩) }
        else b := by
  by_cases h1 : isValidDate d
  · by_cases h2 : 0 < r ∧ r < 100
    · simp only [applyOp, stepBank, defineInterestRule, if_neg (not_not_intro h1),
        if_neg (not_not_intro h2)]
      rw [if_pos ⟨h1, h2⟩]
    · simp only [applyOp, stepBank, defineInterestRule, if_neg (not_not_intro h1),
        if_pos h2]
      rw [if_neg (fun hx => h2 hx.2)]
  · simp only [applyOp, stepBank, defineInterestRule, if_pos h1]
    rw [if_neg (fun hx => h1 hx.1)]

theorem upsertRule_map_date (l : List InterestRule) (r : InterestRule) :
    (upsertRule l r).map (·.date)
      = if l.any (fun x => x.date == r.date) then l.map (·.date)
        else l.map (·.date) ++ [r.date] := by
  induction l with
  | nil => simp [upsertRule]
  | cons x rest ih =>
      by_cases hx : x.date = r.date
      · simp [upsertRule, hx]
      · have hb : (x.date == r.date) = false := beq_false_of_ne hx
        simp only [upsertRule, if_neg hx, List.map_cons, List.any_cons, hb,
          Bool.false_or, ih]
        split_ifs <;> simp

theorem filter_upsertRule (l : List InterestRule) (r : InterestRule) (d : ℕ)
    (hd : r.date = d)
    (hl : l.Pairwise (fun a b => a.date < b.date)) :
    (upsertRule l r).filter (fun x => x.date == d) = [r] := by
  subst hd
  induction l with
  | nil => simp [upsertRule]
  | cons x rest ih =>
      by_cases hx : x.date = r.date
      · have hrest : rest.filter (fun y => y.date == r.date) = [] := by
          rw [List.filter_eq_nil_iff]
          intro a ha
          have hlt := (List.pairwise_cons.mp hl).1 a ha
          simp only [beq_iff_eq]
          omega
        simp [upsertRule, hx, hrest]
      · have hb : (x.date == r.date) = false := beq_false_of_ne hx
        simp only [upsertRule, if_neg hx]
        rw [List.filter_cons_of_neg (by simp [hb])]
        exact ih (List.pairwise_cons.mp hl).2

theorem pairwise_lt_of_sorted_nodup (l : List InterestRule)
    (hs : l.Pairwise ruleDateLe)
    (hn : (l.map (·.date)).Nodup) :
    l.Pairwise (fun a b => a.date < b.date) := by
  have hne : l.Pairwise (fun a b : InterestRule => a.date ≠ b.date) :=
    List.pairwise_map.mp hn
  exact (hs.and hne).imp (fun h => lt_of_le_of_ne h.1 h.2)

theorem ruleInv_applyOp (b : Bank) (op : Op)
    (h : b.interestRules.Pairwise (fun a b => a.date < b.date)) :
    (applyOp b op).interestRules.Pairwise (fun a b => a.date < b.date) := by
  cases op with
  | txn d acct ty q =>
      cases hstep : recordTransaction b d acct ty q with
      | error e =>
          simp only [applyOp, stepBank, hstep]
          exact h
      | ok b2 =>
          obtain ⟨hb2, _, _⟩ := recordTransaction_ok_cases hstep
          simp only [applyOp, stepBank, hstep, hb2]
          exact h
  | rule d rid r =>
      rw [applyOp_rule]
      split_ifs with hacc
      · have hnd : (b.interestRules.map (·.date)).Nodup :=
          List.pairwise_map.mpr (h.imp (fun hab => Nat.ne_of_lt hab))
        have hperm : List.Perm
            (sortRulesByDate (upsertRule b.interestRules ⟨d, rid, r⟩))
            (upsertRule b.interestRules ⟨d, rid, r⟩) :=
          List.perm_insertionSort _ _
        refine pairwise_lt_of_sorted_nodup _ (List.sorted_insertionSort _ _) ?_
        rw [(hperm.map (·.date)).nodup_iff]
        rw [upsertRule_map_date]
        split_ifs with hany
        · exact hnd
        · have hnotin : d ∉ b.interestRules.map (·.date) := by
            intro hmem
            obtain ⟨x, hxmem, hxd⟩ := List.mem_map.mp hmem
            have hx : b.interestRules.any (fun x => x.date == d) = true :=
              List.any_eq_true.mpr ⟨x, hxmem, by simp [hxd]⟩
            exact hany hx
          exact List.Nodup.append hnd (List.nodup_singleton d)
            (by simpa [List.disjoint_singleton] using hnotin)
      · exact h

theorem ruleInv_applyOps (ops : List Op) (b : Bank)
    (h : b.interestRules.Pairwise (fun a b => a.date < b.date)) :
    (applyOps b ops).interestRules.Pairwise (fun a b => a.date < b.date) := by
  induction ops generalizing b with
  | nil => exact h
  | cons op rest ih =>
      rw [applyOps_cons]
      exact ih (applyOp b op) (ruleInv_applyOp b op h)

/-- C6: after any sequence of operations from the fresh state, the interest
rules are strictly sorted by effective date (hence at most one rule per
date), and an accepted define for a date leaves exactly one rule for that
date, carrying the most recently given rule id and rate. -/
theorem interest_rules_unique_sorted_last_wins (ops : List Op) :
    ((applyOps initialBank ops).interestRules.Pairwise
        (fun a b : InterestRule => a.date < b.date))
      ∧ ∀ (date : ℕ) (ruleId : String) (rate : ℚ),
          isValidDate date → 0 < rate → rate < 100 →
          ((applyOp (applyOps initialBank ops)
              (Op.rule date ruleId rate)).interestRules.filter
              (fun x => x.date == date))
            = [⟨date, ruleId, rate⟩] := by
  have hinv := ruleInv_applyOps ops initialBank (by simp [initialBank])
  refine ⟨hinv, ?_⟩
  intro date rid rate h1 h2 h3
  rw [applyOp_rule, if_pos ⟨h1, h2, h3⟩]
  dsimp only
  have hperm : List.Perm
      (sortRulesByDate
        (upsertRule (applyOps initialBank ops).interestRules ⟨date, rid, rate⟩))
      (upsertRule (applyOps initialBank ops).interestRules ⟨date, rid, rate⟩) :=
    List.perm_insertionSort _ _
  have hf := hperm.filter (fun x => x.date == date)
  rw [filter_upsertRule _ ⟨date, rid, rate⟩ date rfl hinv] at hf
  exact hf.eq_singleton

unseal Rat.add Rat.mul Rat.sub Rat.inv in
/-- Witness for C6: defining `R1 1%` and then `R2 2%` for the same date
`20230101` leaves exactly the second rule for that date. -/
theorem interest_rules_last_wins_witness :
    isValidDate 20230101 ∧ (0 : ℚ) < 2 ∧ (2 : ℚ) < 100
      ∧ (applyOps initialBank [Op.rule 20230101 "R1" 1]).interestRules
          = [⟨20230101, "R1", 1⟩]
      ∧ ((applyOp (applyOps initialBank [Op.rule 20230101 "R1" 1])
            (Op.rule 20230101 "R2" 2)).interestRules.filter
            (fun x => x.date == 20230101))
          = [⟨20230101, "R2", 2⟩] :=
  ⟨by decide, by norm_num, by norm_num, by decide,
    (interest_rules_unique_sorted_last_wins [Op.rule 20230101 "R1" 1]).2 20230101 "R2" 2
      (by decide) (by norm_num) (by norm_num)⟩

/-! ## C1: the interest computation equals the spec's run decomposition -/

theorem daysInMonth_ge_28 (y m : ℕ) : 28 ≤ daysInMonth y m := by
  unfold daysInMonth
  split_ifs <;> omega

theorem daysInMonth_le_31 (y m : ℕ) : daysInMonth y m ≤ 31 := by
  unfold daysInMonth
  split_ifs <;> omega

theorem getInterestRate_nonneg (rules : List InterestRule) (date : ℕ)
    (hr : ∀ r ∈ rules, 0 < r.rate) : 0 ≤ getInterestRate rules date := by
  unfold getInterestRate
  cases hs : List.insertionSort ruleDateGe
      (rules.filter (fun r => decide (r.date ≤ date))) with
  | nil => exact le_refl 0
  | cons r rest =>
      have hmem : r ∈ List.insertionSort ruleDateGe
          (rules.filter (fun x => decide (x.date ≤ date))) := by
        rw [hs]
        exact List.mem_cons_self r rest
      have hmem2 : r ∈ rules.filter (fun x => decide (x.date ≤ date)) :=
        (List.mem_insertionSort ruleDateGe).mp hmem
      exact le_of_lt (hr r (List.mem_filter.mp hmem2).1)

theorem signedSum_nil : signedSum [] = 0 := rfl

theorem signedSum_cons (t : Transaction) (l : List Transaction) :
    signedSum (t :: l) = signedAmount t + signedSum l := by
  simp [signedSum]

theorem foldBalance_eq_signedSum (c : ℚ) (l : List Transaction) :
    foldBalance c l = c + signedSum l := by
  induction l generalizing c with
  | nil => simp [foldBalance, signedSum]
  | cons t rest ih =>
      rw [show foldBalance c (t :: rest)
          = foldBalance (calculateNewBalance c t.type t.amount) rest from rfl, ih,
        signedSum_cons]
      unfold calculateNewBalance signedAmount
      split_ifs <;> ring

theorem foldBalance_of_perm (c : ℚ) {l l' : List Transaction}
    (h : List.Perm l l') : foldBalance c l = foldBalance c l' := by
  rw [foldBalance_eq_signedSum, foldBalance_eq_signedSum]
  unfold signedSum
  rw [(h.map signedAmount).sum_eq]

theorem signedSum_of_perm {l l' : List Transaction}
    (h : List.Perm l l') : signedSum l = signedSum l' := by
  unfold signedSum
  rw [(h.map signedAmount).sum_eq]

theorem foldl_applyTxnToTable_snd (n : ℕ) (txns : List Transaction) :
    ∀ st : (ℕ → ℚ) × ℚ,
      (txns.foldl (applyTxnToTable n) st).2 = foldBalance st.2 txns := by
  induction txns with
  | nil => intro st; simp [foldBalance]
  | cons t rest ih =>
      intro st
      rw [List.foldl_cons, ih]
      rfl

theorem buildDailyBalances_snd (opening : ℚ) (n : ℕ) (txns : List Transaction) :
    (buildDailyBalances opening n txns).2 = foldBalance opening txns :=
  foldl_applyTxnToTable_snd n txns _

theorem buildDailyBalances_table (opening : ℚ) (n : ℕ) :
    ∀ txns : List Transaction,
      txns.Pairwise (fun a b => a.date % 100 ≤ b.date % 100) →
      ∀ d : ℕ, d ≤ n →
        (buildDailyBalances opening n txns).1 d
          = foldBalance opening (txns.filter (fun t => decide (t.date % 100 ≤ d))) := by
  intro txns
  induction txns using List.reverseRecOn with
  | nil => intro _ d _; simp [buildDailyBalances, foldBalance]
  | append_singleton l t ih =>
      intro hsort d hd
      have hpw := List.pairwise_append.mp hsort
      have hbuild : buildDailyBalances opening n (l ++ [t])
          = applyTxnToTable n (buildDailyBalances opening n l) t := by
        unfold buildDailyBalances
        rw [List.foldl_append]
        rfl
      rw [hbuild, List.filter_append]
      by_cases hc : t.date % 100 ≤ d
      · have hall : ∀ x ∈ l, x.date % 100 ≤ t.date % 100 := by
          intro x hx
          exact hpw.2.2 x hx t (List.mem_singleton_self t)
        have hfl : l.filter (fun x => decide (x.date % 100 ≤ d)) = l :=
          List.filter_eq_self.mpr (fun x hx => by
            simp only [decide_eq_true_eq]
            exact le_trans (hall x hx) hc)
        have hft : List.filter (fun x => decide (x.date % 100 ≤ d)) [t] = [t] := by
          simp [hc]
        rw [hfl, hft, foldBalance_snoc]
        show (applyTxnToTable n (buildDailyBalances opening n l) t).1 d = _
        simp only [applyTxnToTable]
        rw [if_pos ⟨hc, hd⟩, buildDailyBalances_snd]
      · have hft : List.filter (fun x => decide (x.date % 100 ≤ d)) [t] = [] := by
          simp [hc]
        rw [hft, List.append_nil]
        show (applyTxnToTable n (buildDailyBalances opening n l) t).1 d = _
        simp only [applyTxnToTable]
        rw [if_neg (fun hx : t.date % 100 ≤ d ∧ d ≤ n => hc hx.1)]
        exact ih hpw.1 d hd

theorem runLen_le (rate : ℕ → ℚ) : ∀ f s : ℕ, runLen rate f s ≤ f := by
  intro f
  induction f with
  | zero => intro s; simp [runLen]
  | succ f ih =>
      intro s
      rw [runLen]
      split_ifs with h
      · exact Nat.succ_le_succ (ih (s + 1))
      · exact Nat.zero_le _

theorem runLen_spec (rate : ℕ → ℚ) :
    ∀ f s e : ℕ, s ≤ e → e ≤ s + f →
      (∀ d, s ≤ d → d ≤ e → rate d = rate s) →
      (e = s + f ∨ rate (e + 1) ≠ rate e) →
      runLen rate f s = e - s := by
  intro f
  induction f with
  | zero =>
      intro s e h1 h2 _ _
      have : e = s := by omega
      simp [runLen, this]
  | succ f ih =>
      intro s e h1 h2 hc hb
      by_cases hse : s = e
      · have hbr : ¬ rate (s + 1) = rate s := by
          cases hb with
          | inl h => omega
          | inr h => rw [← hse] at h; exact h
        rw [runLen, if_neg hbr]
        omega
      · have hslt : s < e := lt_of_le_of_ne h1 hse
        have hr1 : rate (s + 1) = rate s := hc (s + 1) (by omega) (by omega)
        rw [runLen, if_pos hr1]
        have hrec := ih (s + 1) e (by omega) (by omega)
          (fun d hd1 hd2 => by rw [hc d (by omega) hd2, hr1])
          (by
            cases hb with
            | inl h => exact Or.inl (by omega)
            | inr h => exact Or.inr h)
        omega

theorem runEnd_spec (rate : ℕ → ℚ) (n s e : ℕ) (hs : s ≤ n) (h1 : s ≤ e)
    (h2 : e ≤ n) (hc : ∀ d, s ≤ d → d ≤ e → rate d = rate s)
    (hb : e = n ∨ rate (e + 1) ≠ rate e) : runEnd rate n s = e := by
  unfold runEnd
  have := runLen_spec rate (n - s) s e h1 (by omega) hc
    (by
      cases hb with
      | inl h => exact Or.inl (by omega)
      | inr h => exact Or.inr h)
  omega

theorem runEnd_ge (rate : ℕ → ℚ) (n s : ℕ) : s ≤ runEnd rate n s := by
  unfold runEnd
  omega

theorem runEnd_le (rate : ℕ → ℚ) (n s : ℕ) (h : s ≤ n) : runEnd rate n s ≤ n := by
  have := runLen_le rate (n - s) s
  unfold runEnd
  omega

theorem runsFrom_of_gt (rate : ℕ → ℚ) (n s : ℕ) (h : n < s) :
    runsFrom rate n s = [] := by
  rw [runsFrom]
  rw [if_neg (by omega)]

theorem runsFrom_cons (rate : ℕ → ℚ) (n s : ℕ) (h : s ≤ n)
    (hlt : runEnd rate n s < n) :
    runsFrom rate n s = (s, runEnd rate n s) :: runsFrom rate n (runEnd rate n s + 1) := by
  rw [runsFrom]
  rw [if_pos h, dif_pos hlt]

theorem runsFrom_last (rate : ℕ → ℚ) (n s : ℕ) (h : s ≤ n)
    (hge : ¬ runEnd rate n s < n) :
    runsFrom rate n s = [(s, runEnd rate n s)] := by
  rw [runsFrom]
  rw [if_pos h, dif_neg hge]

theorem runsFrom_mem (rate : ℕ → ℚ) (n s : ℕ) (p : ℕ × ℕ)
    (hp : p ∈ runsFrom rate n s) : s ≤ p.1 ∧ p.1 ≤ p.2 ∧ p.2 ≤ n := by
  by_cases h : s ≤ n
  · have he1 : s ≤ runEnd rate n s := runEnd_ge rate n s
    have he2 : runEnd rate n s ≤ n := runEnd_le rate n s h
    by_cases hlt : runEnd rate n s < n
    · rw [runsFrom_cons rate n s h hlt] at hp
      cases List.mem_cons.mp hp with
      | inl hpe => subst hpe; exact ⟨le_refl s, he1, he2⟩
      | inr hrest =>
          have hrec := runsFrom_mem rate n (runEnd rate n s + 1) p hrest
          exact ⟨by omega, hrec.2.1, hrec.2.2⟩
    · rw [runsFrom_last rate n s h hlt] at hp
      rw [List.mem_singleton] at hp
      subst hp
      exact ⟨le_refl s, he1, he2⟩
  · rw [runsFrom_of_gt rate n s (by omega)] at hp
    cases hp
termination_by n + 1 - s
decreasing_by
  simp only [runEnd] at hlt ⊢
  omega

theorem interestLoop_runs (rate bal : ℕ → ℚ) (n : ℕ) (hnn : ∀ d, 0 ≤ rate d) :
    ∀ (m k ps : ℕ) (tot : ℚ), k + m = n + 1 → 1 ≤ ps → ps < k →
      (∀ d, ps ≤ d → d < k → rate d = rate ps) →
      finishPeriod bal n
          ((List.range' k m).foldl (interestStep rate bal) (ps, rate ps, tot))
        = tot + runSum rate bal (runsFrom rate n ps) := by
  intro m
  induction m with
  | zero =>
      intro k ps tot hk h1 h2 hc
      have hps : ps ≤ n := by omega
      have hrend : runEnd rate n ps = n :=
        runEnd_spec rate n ps n hps (by omega) le_rfl
          (fun d hd1 hd2 => hc d hd1 (by omega)) (Or.inl rfl)
      have hrun : runsFrom rate n ps = [(ps, n)] := by
        rw [runsFrom_last rate n ps hps (by rw [hrend]; omega), hrend]
      rw [show List.range' k 0 = [] from rfl, List.foldl_nil, hrun]
      unfold finishPeriod runSum specContrib
      simp only [List.map_cons, List.map_nil, List.sum_cons, List.sum_nil]
      by_cases h0 : rate ps = 0
      · rw [if_neg (by rw [h0]; exact lt_irrefl 0), if_pos h0]
        ring
      · have hpos : 0 < rate ps := lt_of_le_of_ne (hnn ps) (Ne.symm h0)
        rw [if_pos hpos, if_neg h0]
        ring
  | succ m ih =>
      intro k ps tot hk h1 h2 hc
      have hkn : k ≤ n := by omega
      rw [List.range'_succ, List.foldl_cons]
      by_cases hrk : rate k = rate ps
      · have hstep : interestStep rate bal (ps, rate ps, tot) k = (ps, rate ps, tot) := by
          simp [interestStep, hrk]
        rw [hstep]
        exact ih (k + 1) ps tot (by omega) h1 (by omega)
          (fun d hd1 hd2 => by
            by_cases hdk : d = k
            · rw [hdk]; exact hrk
            · exact hc d hd1 (by omega))
      · have hstep : interestStep rate bal (ps, rate ps, tot) k
            = (k, rate k,
                if 0 < rate ps then
                  tot + bal ps * rate ps / 100 * ((k - ps : ℕ) : ℚ) / 365
                else tot) := by
          simp [interestStep, hrk]
        rw [hstep]
        rw [ih (k + 1) k _ (by omega) (by omega) (by omega)
          (fun d hd1 hd2 => by
            have : d = k := by omega
            rw [this])]
        have hrend : runEnd rate n ps = k - 1 :=
          runEnd_spec rate n ps (k - 1) (by omega) (by omega) (by omega)
            (fun d hd1 hd2 => hc d hd1 (by omega))
            (Or.inr (by
              have hk1 : k - 1 + 1 = k := by omega
              rw [hk1, hc (k - 1) (by omega) (by omega)]
              exact hrk))
        have hrun : runsFrom rate n ps = (ps, k - 1) :: runsFrom rate n k := by
          rw [runsFrom_cons rate n ps (by omega) (by rw [hrend]; omega), hrend]
          have hk1 : k - 1 + 1 = k := by omega
          rw [hk1]
        rw [hrun]
        unfold runSum
        simp only [List.map_cons, List.sum_cons]
        unfold specContrib
        by_cases h0 : rate ps = 0
        · rw [if_neg (by rw [h0]; exact lt_irrefl 0), if_pos h0]
          ring
        · have hpos : 0 < rate ps := lt_of_le_of_ne (hnn ps) (Ne.symm h0)
          rw [if_pos hpos, if_neg h0]
          have hdays : (k - 1 : ℕ) - ps + 1 = k - ps := by omega
          rw [hdays]
          ring

theorem monthTransactions_day_sorted (b : Bank) (account : String) (monthStr : ℕ) :
    (monthTransactions b account monthStr).Pairwise
      (fun a b => a.date % 100 ≤ b.date % 100) := by
  unfold monthTransactions
  have hs : (sortTxnsByDate
      ((lookupAccount b account).getD emptyAccount).transactions).Pairwise txnDateLe :=
    List.sorted_insertionSort txnDateLe _
  have hf := hs.filter (fun t => t.date / 100 == monthStr)
  refine hf.imp_of_mem ?_
  intro a c ha hc hle
  have hma : a.date / 100 = monthStr := by
    have := (List.mem_filter.mp ha).2
    simpa using this
  have hmc : c.date / 100 = monthStr := by
    have := (List.mem_filter.mp hc).2
    simpa using this
  have h1 := Nat.div_add_mod a.date 100
  have h2 := Nat.div_add_mod c.date 100
  have hle2 : a.date ≤ c.date := hle
  omega

theorem signedSum_split (M s : ℕ) (hs1 : 1 ≤ s) (hs99 : s ≤ 99) :
    ∀ l : List Transaction, (∀ t ∈ l, isValidDate t.date) →
      signedSum (l.filter (fun t => decide (t.date ≤ M * 100 + s)))
        = signedSum (l.filter (fun t => decide (t.date < M * 100 + 1)))
          + signedSum ((l.filter (fun t => t.date / 100 == M)).filter
              (fun t => decide (t.date % 100 ≤ s))) := by
  intro l
  induction l with
  | nil => intro _; simp [signedSum]
  | cons t rest ih =>
      intro hv
      have hrest := ih (fun x hx => hv x (List.mem_cons_of_mem _ hx))
      have hvt := hv t (List.mem_cons_self _ _)
      have hday1 : 1 ≤ t.date % 100 := hvt.2.2.2.2.1
      have hdm := Nat.div_add_mod t.date 100
      by_cases hbefore : t.date < M * 100 + 1
      · have e1 : List.filter (fun x => decide (x.date ≤ M * 100 + s)) (t :: rest)
            = t :: List.filter (fun x => decide (x.date ≤ M * 100 + s)) rest := by
          simp [List.filter_cons, show t.date ≤ M * 100 + s by omega]
        have e2 : List.filter (fun x => decide (x.date < M * 100 + 1)) (t :: rest)
            = t :: List.filter (fun x => decide (x.date < M * 100 + 1)) rest := by
          simp [List.filter_cons, hbefore]
        have e3 : List.filter (fun x => x.date / 100 == M) (t :: rest)
            = List.filter (fun x => x.date / 100 == M) rest := by
          simp [List.filter_cons, show ¬ t.date / 100 = M by omega]
        rw [e1, e2, e3, signedSum_cons, signedSum_cons, hrest]
        ring
      · by_cases hin : t.date ≤ M * 100 + s
        · have hdiv : t.date / 100 = M := by omega
          have e1 : List.filter (fun x => decide (x.date ≤ M * 100 + s)) (t :: rest)
              = t :: List.filter (fun x => decide (x.date ≤ M * 100 + s)) rest := by
            simp [List.filter_cons, hin]
          have e2 : List.filter (fun x => decide (x.date < M * 100 + 1)) (t :: rest)
              = List.filter (fun x => decide (x.date < M * 100 + 1)) rest := by
            simp [List.filter_cons, hbefore]
          have e3 : List.filter (fun x => x.date / 100 == M) (t :: rest)
              = t :: List.filter (fun x => x.date / 100 == M) rest := by
            simp [List.filter_cons, hdiv]
          have e4 : List.filter (fun x => decide (x.date % 100 ≤ s))
                (t :: List.filter (fun x => x.date / 100 == M) rest)
              = t :: List.filter (fun x => decide (x.date % 100 ≤ s))
                  (List.filter (fun x => x.date / 100 == M) rest) := by
            simp [List.filter_cons, show t.date % 100 ≤ s by omega]
          rw [e1, e2, e3, e4, signedSum_cons, signedSum_cons, hrest]
          ring
        · have e1 : List.filter (fun x => decide (x.date ≤ M * 100 + s)) (t :: rest)
              = List.filter (fun x => decide (x.date ≤ M * 100 + s)) rest := by
            simp [List.filter_cons, hin]
          have e2 : List.filter (fun x => decide (x.date < M * 100 + 1)) (t :: rest)
              = List.filter (fun x => decide (x.date < M * 100 + 1)) rest := by
            simp [List.filter_cons, hbefore]
          rw [e1, e2]
          by_cases hdiv : t.date / 100 = M
          · have e3 : List.filter (fun x => x.date / 100 == M) (t :: rest)
                = t :: List.filter (fun x => x.date / 100 == M) rest := by
              simp [List.filter_cons, hdiv]
            have e4 : List.filter (fun x => decide (x.date % 100 ≤ s))
                  (t :: List.filter (fun x => x.date / 100 == M) rest)
                = List.filter (fun x => decide (x.date % 100 ≤ s))
                    (List.filter (fun x => x.date / 100 == M) rest) := by
              simp [List.filter_cons, show ¬ t.date % 100 ≤ s by omega]
            rw [e3, e4]
            exact hrest
          · have e3 : List.filter (fun x => x.date / 100 == M) (t :: rest)
                = List.filter (fun x => x.date / 100 == M) rest := by
              simp [List.filter_cons, hdiv]
            rw [e3]
            exact hrest

theorem monthTable_eq_specDailyBalance (b : Bank) (account : String)
    (monthStr n : ℕ)
    (hv : ∀ t ∈ ((lookupAccount b account).getD emptyAccount).transactions,
      isValidDate t.date)
    (s : ℕ) (hs1 : 1 ≤ s) (hsn : s ≤ n) (hs99 : s ≤ 99) :
    monthTable b account monthStr n s = specDailyBalance b account monthStr s := by
  unfold monthTable
  rw [buildDailyBalances_table _ _ _ (monthTransactions_day_sorted b account monthStr)
    s hsn]
  rw [foldBalance_eq_signedSum]
  unfold monthOpening
  rw [foldBalance_eq_signedSum, zero_add]
  unfold specDailyBalance
  rw [foldBalance_eq_signedSum, zero_add]
  have p1 : signedSum
      ((sortTxnsByDate
          ((lookupAccount b account).getD emptyAccount).transactions).filter
        (fun t => decide (t.date < monthStr * 100 + 1)))
      = signedSum
        (((lookupAccount b account).getD emptyAccount).transactions.filter
          (fun t => decide (t.date < monthStr * 100 + 1))) :=
    signedSum_of_perm ((List.perm_insertionSort txnDateLe _).filter _)
  have p2 : signedSum
      ((monthTransactions b account monthStr).filter
        (fun t => decide (t.date % 100 ≤ s)))
      = signedSum
        ((((lookupAccount b account).getD emptyAccount).transactions.filter
            (fun t => t.date / 100 == monthStr)).filter
          (fun t => decide (t.date % 100 ≤ s))) := by
    unfold monthTransactions
    exact signedSum_of_perm (((List.perm_insertionSort txnDateLe _).filter _).filter _)
  rw [p1, p2, ← signedSum_split monthStr s hs1 hs99
    ((lookupAccount b account).getD emptyAccount).transactions hv]

/-- C1: for every bank state whose stored transaction dates are valid and
whose interest rules carry positive rates, and every month key with a real
month part, `calculateMonthlyInterest` returns the sum, over the maximal
contiguous runs of days of the month on which `getInterestRate` gives the
same rate, of `balance(run start) * rate / 100 * run-days / 365` — the
balance as of the run's start day — with zero-rate runs contributing 0 and
the total rounded to 2 decimal places. -/
theorem calculateMonthlyInterest_eq_run_sum (b : Bank) (account : String)
    (monthStr : ℕ) (endBalance : ℚ)
    (hm1 : 1 ≤ monthStr % 100) (hm2 : monthStr % 100 ≤ 12)
    (hv : ∀ t ∈ ((lookupAccount b account).getD emptyAccount).transactions,
      isValidDate t.date)
    (hr : ∀ r ∈ b.interestRules, 0 < r.rate) :
    calculateMonthlyInterest b account monthStr endBalance
      = round2 (specMonthlyInterest b account monthStr) := by
  by_cases hrul : b.interestRules = []
  · rw [calculateMonthlyInterest, if_pos hrul]
    have hrate0 : ∀ d, monthRate b monthStr d = 0 := by
      intro d
      unfold monthRate getInterestRate
      rw [hrul]
      rfl
    have hrs : ∀ (rs : List (ℕ × ℕ)) (bal : ℕ → ℚ),
        runSum (monthRate b monthStr) bal rs = 0 := by
      intro rs bal
      unfold runSum
      apply List.sum_eq_zero
      intro x hx
      obtain ⟨p, hp, hpe⟩ := List.mem_map.mp hx
      rw [← hpe]
      unfold specContrib
      rw [if_pos (hrate0 p.1)]
    rw [show specMonthlyInterest b account monthStr
        = runSum (monthRate b monthStr) (specDailyBalance b account monthStr)
            (runsFrom (monthRate b monthStr)
              (daysInMonth (monthStr / 100) (monthStr % 100)) 1) from rfl, hrs]
    simp [round2]
  · rw [calculateMonthlyInterest, if_neg hrul]
    show round2 (interestLoop (monthRate b monthStr)
        (monthTable b account monthStr (daysInMonth (monthStr / 100) (monthStr % 100)))
        (daysInMonth (monthStr / 100) (monthStr % 100)))
      = round2 (specMonthlyInterest b account monthStr)
    rw [show specMonthlyInterest b account monthStr
        = runSum (monthRate b monthStr) (specDailyBalance b account monthStr)
            (runsFrom (monthRate b monthStr)
              (daysInMonth (monthStr / 100) (monthStr % 100)) 1) from rfl]
    set n := daysInMonth (monthStr / 100) (monthStr % 100) with hn
    have h28 : 28 ≤ n := daysInMonth_ge_28 _ _
    have h31 : n ≤ 31 := daysInMonth_le_31 _ _
    unfold interestLoop
    have hL := interestLoop_runs (monthRate b monthStr)
      (monthTable b account monthStr n) n
      (fun d => getInterestRate_nonneg _ _ hr) (n - 1) 2 1 0
      (by omega) le_rfl (by omega)
      (fun d hd1 hd2 => by
        have hd : d = 1 := by omega
        rw [hd])
    rw [hL, zero_add]
    congr 1
    unfold runSum
    refine congrArg _ (List.map_congr_left ?_)
    intro p hp
    obtain ⟨hp1, hp12, hp2n⟩ := runsFrom_mem (monthRate b monthStr) n 1 p hp
    unfold specContrib
    rw [monthTable_eq_specDailyBalance b account monthStr n hv p.1 hp1
      (le_trans hp12 hp2n) (by omega)]

unseal Rat.add Rat.mul Rat.sub Rat.inv in
/-- Witness for C1 at Scenario E of the spec: with rate `1.00` effective
`20230101`, rate `2.00` effective `20230615`, and a flat balance of
`1000.00` through the 30 days of June 2023, the computed interest equals
the spec's run sum, and concretely
`round2 (1000*1/100*14/365 + 1000*2/100*16/365) = 1.26`. -/
theorem calculateMonthlyInterest_eq_run_sum_witness :
    1 ≤ (202306 : ℕ) % 100 ∧ (202306 : ℕ) % 100 ≤ 12
      ∧ (∀ t ∈ ((lookupAccount scenarioE "AC001").getD emptyAccount).transactions,
          isValidDate t.date)
      ∧ (∀ r ∈ scenarioE.interestRules, 0 < r.rate)
      ∧ calculateMonthlyInterest scenarioE "AC001" 202306 0
          = round2 (specMonthlyInterest scenarioE "AC001" 202306)
      ∧ calculateMonthlyInterest scenarioE "AC001" 202306 0
          = round2 (1000 * 1 / 100 * 14 / 365 + 1000 * 2 / 100 * 16 / 365)
      ∧ round2 (1000 * 1 / 100 * 14 / 365 + 1000 * 2 / 100 * 16 / 365) = 63 / 50 :=
  ⟨by decide, by decide, by decide, by decide,
    calculateMonthlyInterest_eq_run_sum scenarioE "AC001" 202306 0 (by decide)
      (by decide) (by decide) (by decide),
    by decide, by decide⟩
